import Mathlib

/-!
Verification development for the attendance reconciliation engine of
`asistencia_automatica.py` (class `SistemaAsistencia`): the ingestion stage
(`procesar_nuevas_entradas`), the exit-matching stage (`actualizar_salidas`
together with its batch writer `_actualizar_salidas_sheets`), the minutes
calculator (`calcular_minutos` with `_actualizar_minutos_sheets`) and the
time parser (`parsear_hora`).  Sheet rows are modelled as structures holding
the columns the engine touches; clock times are seconds after midnight; the
float arithmetic of the source (`total_seconds() / 60` followed by
`int(...)`) is modelled by exact integer arithmetic with truncating division
(`Int.tdiv`), which agrees with the float computation on whole-second clock
times.
-/

namespace Asistencia

/-- Whitespace characters removed by Python `str.strip()` (ASCII range). -/
def esBlanco (c : Char) : Bool :=
  c = ' ' || c = '\t' || c = '\n' || c = '\r' || c = '\x0b' || c = '\x0c'

/-- Model of Python `str.strip()` on the character list of a string. -/
def recortar (l : List Char) : List Char :=
  ((l.dropWhile esBlanco).reverse.dropWhile esBlanco).reverse

/-- Model of Python `str.split(sep)` for a one-character separator: splits at
every occurrence of the separator, keeping empty pieces, and yields `[[]]` on
the empty string. -/
def dividir (sep : Char) : List Char → List (List Char)
  | [] => [[]]
  | c :: rest =>
    let r := dividir sep rest
    if c = sep then [] :: r
    else
      match r with
      | [] => [[c]]
      | x :: xs => (c :: x) :: xs

/-- Model of Python `str.zfill(2)` as used by `parsear_hora`: left-pad with
zeros to two characters.  (Python's `zfill` moves a leading sign in front of
the padding; on such inputs the strict time parse below fails either way, so
the plain pad yields the same parse result.) -/
def rellenar2 (l : List Char) : List Char :=
  if l.length < 2 then List.replicate (2 - l.length) '0' ++ l else l

/-- Decimal value of a digit string. -/
def valorNum (l : List Char) : Nat :=
  l.foldl (fun a c => a * 10 + (c.toNat - 48)) 0

/-- Numeric field of `strptime`'s `%H` / `%M` / `%S`: one or two decimal
digits. -/
def campoNum (l : List Char) : Option Nat :=
  if l ≠ [] ∧ l.length ≤ 2 ∧ l.all Char.isDigit then some (valorNum l) else none

/-- Model of `datetime.strptime(s, "%H:%M:%S")`: exactly three colon-separated
numeric fields of one or two digits, hour at most 23, minute and second at
most 59.  Returns the time as seconds after midnight; `none` models the
`ValueError` raised by the library. -/
def strptimeHMS (l : List Char) : Option Nat :=
  match dividir ':' l with
  | [h, m, s] =>
    match campoNum h, campoNum m, campoNum s with
    | some hv, some mv, some sv =>
      if hv ≤ 23 ∧ mv ≤ 59 ∧ sv ≤ 59 then some (hv * 3600 + mv * 60 + sv)
      else none
    | _, _, _ => none
  | _ => none

/-- First normalization of `parsear_hora`: a value with exactly one colon is
read as `H:MM` and rewritten to `HH:MM:00` (both pieces zero-filled). -/
def normalizar1 (t : List Char) : List Char :=
  if (dividir ':' t).length = 2 then
    match dividir ':' t with
    | [a, b] => rellenar2 a ++ ':' :: rellenar2 b ++ [':', '0', '0']
    | _ => t
  else t

/-- Second normalization of `parsear_hora`: a value with exactly two colons
and a one-character hour is rewritten to `0H:MM:SS`. -/
def normalizar2 (t : List Char) : List Char :=
  if (dividir ':' t).length = 3 then
    match dividir ':' t with
    | [a, b, c] => if a.length = 1 then '0' :: a ++ ':' :: b ++ ':' :: c else t
    | _ => t
  else t

/-- SistemaAsistencia.parsear_hora: empty input yields no value; otherwise the
input is stripped, normalized by `normalizar1` and `normalizar2`, and parsed
strictly as `HH:MM:SS`; a parse failure is caught in the source (logged and
turned into `None`), modelled by `none`. -/
def parsearHora (horaStr : String) : Option Nat :=
  if horaStr = "" then none
  else strptimeHMS (normalizar2 (normalizar1 (recortar horaStr.data)))

/-- Row of the REGISTRO_DIARIO sheet (raw clock event log).  `captura` is the
column `Captura de petición de horas extra`. -/
structure RawEvent where
  id : String
  colaborador : String
  etapa : String
  fecha : String
  hora : String
  descripcion : String
  captura : String
deriving DecidableEq, Inhabited

/-- Row of the REGISTRO_CALENDARIO sheet (derived ledger), restricted to the
columns the engine reads or writes (the two unused columns are omitted). -/
structure LedgerRecord where
  colaborador : String
  horaEntrada : String
  horaSalida : String
  fechaEntrada : String
  fechaSalida : String
  descripcion : String
  extratime : String
  minutos : String
  minutosNormales : String
  minutosExtras : String
  idCal : String
  idRegistro : String
deriving DecidableEq, Inhabited

/-- Row of the HORARIOLABORAL sheet (weekly schedule rules). -/
structure ScheduleRule where
  colaborador : String
  dias : String
  horaEntrada : String
  horaSalida : String
deriving DecidableEq, Inhabited

/-- Pending-exit update assembled by `actualizar_salidas` and written by
`_actualizar_salidas_sheets`. -/
structure Salida where
  colaborador : String
  horaSalida : String
  fechaSalida : String
  idCal : String
  descripcion : String
  extratime : String
  idRegistro : String
deriving DecidableEq, Inhabited

/-- Minute computation assembled by `calcular_minutos` and written by
`_actualizar_minutos_sheets`. -/
structure Calculo where
  minutos : Int
  minutosNormales : Int
  minutosExtras : Int
  idCal : String
deriving DecidableEq, Inhabited

/-- Calendar date, the value produced by `pandas.to_datetime` on a date cell. -/
structure Fecha where
  anno : Nat
  mes : Nat
  dia : Nat
deriving DecidableEq, Inhabited

/-- Nonempty all-digit character list. -/
def todosDigitos (l : List Char) : Bool :=
  !l.isEmpty && l.all Char.isDigit

/-- Model of `pandas.to_datetime` on ISO-format date text `YYYY-MM-DD` (the
format of the sheet's date cells); `none` models the exception raised on
malformed text, which aborts the whole `calcular_minutos` stage. -/
def parseFecha (s : String) : Option Fecha :=
  match dividir '-' s.data with
  | [y, m, d] =>
    if todosDigitos y ∧ todosDigitos m ∧ m.length ≤ 2 ∧
        todosDigitos d ∧ d.length ≤ 2 then
      let mv := valorNum m
      let dv := valorNum d
      if 1 ≤ mv ∧ mv ≤ 12 ∧ 1 ≤ dv ∧ dv ≤ 31 then
        some ⟨valorNum y, mv, dv⟩
      else none
    else none
  | _ => none

/-- Day of the week of a Gregorian date by Sakamoto's method, 0 = Sunday;
model of the weekday underlying `Timestamp.day_name()`. -/
def diaSemana (f : Fecha) : Nat :=
  let t := [0, 3, 2, 5, 0, 3, 5, 1, 4, 6, 2, 4]
  let y := if f.mes < 3 then f.anno - 1 else f.anno
  (y + y / 4 - y / 100 + y / 400 + t.getD (f.mes - 1) 0 + f.dia) % 7

/-- English weekday name, as returned by `Timestamp.day_name()`. -/
def nombreDiaIngles (f : Fecha) : String :=
  ["Sunday", "Monday", "Tuesday", "Wednesday", "Thursday", "Friday",
    "Saturday"].getD (diaSemana f) ""

/-- The `dias_map` dictionary of `calcular_minutos` (English to Spanish). -/
def diasMap : List (String × String) :=
  [("Monday", "Lunes"), ("Tuesday", "Martes"), ("Wednesday", "Miercoles"),
   ("Thursday", "Jueves"), ("Friday", "Viernes"), ("Saturday", "Sabado"),
   ("Sunday", "Domingo")]

/-- Spanish weekday of a date: `dias_map.get(dia_ingles, dia_ingles)`. -/
def diaEspanol (f : Fecha) : String :=
  let d := nombreDiaIngles f
  match diasMap.find? (fun p => p.1 == d) with
  | some p => p.2
  | none => d

/-- The `dias_name` list of `calcular_minutos`. -/
def diasName : List String :=
  ["Lunes", "Martes", "Miercoles", "Jueves", "Viernes", "Sabado", "Domingo"]

/-- Ledger row appended by `procesar_nuevas_entradas` for an entry event:
collaborator, entry time, entry date and source event id, every other cell
left empty. -/
def nuevaEntrada (e : RawEvent) : LedgerRecord :=
  { colaborador := e.colaborador, horaEntrada := e.hora, horaSalida := ""
  , fechaEntrada := e.fecha, fechaSalida := "", descripcion := ""
  , extratime := "", minutos := "", minutosNormales := ""
  , minutosExtras := "", idCal := "", idRegistro := e.id }

/-- Backward scan shared by `procesar_nuevas_entradas`: position of the last
event whose `ID` equals the sought id, scanning from the tail; `0` when the
id is not found (the loop leaves `index_nuevo` at its initial value). -/
def ultimaPosicion (eventos : List RawEvent) (idBuscado : String) : Nat :=
  match eventos.reverse.findIdx? (fun e => e.id == idBuscado) with
  | some k => eventos.length - 1 - k
  | none => 0

/-- SistemaAsistencia.procesar_nuevas_entradas on in-memory tables: `none`
models the early failure return when either sheet has no data rows; otherwise
the result is the list of ledger rows appended (in log order) for the entry
events after the resume anchor.  The external append of `escribir_a_sheets`
places these rows, in this order, after the current ledger rows. -/
def procesarNuevasEntradas (cal : List LedgerRecord) (eventos : List RawEvent) :
    Option (List LedgerRecord) :=
  match cal.getLast?, eventos with
  | some ultimo, _ :: _ =>
    let indexNuevo := ultimaPosicion eventos ultimo.idRegistro + 1
    some (((eventos.drop indexNuevo).filter
      (fun e => e.etapa == "Entrada")).map nuevaEntrada)
  | _, _ => none

/-- Condition of the forward scan of `actualizar_salidas`: stage `Salida` and
the record's collaborator. -/
def esSalidaDe (e : RawEvent) (colab : String) : Bool :=
  e.etapa == "Salida" && e.colaborador == colab

/-- Forward scan (the `z` loop of `actualizar_salidas`): first event at or
after position `p` that is a `Salida` of the collaborator. -/
def primeraSalidaDesde (eventos : List RawEvent) (p : Nat) (colab : String) :
    Option RawEvent :=
  (eventos.drop p).find? (fun e => esSalidaDe e colab)

/-- Exit update built from a matching exit event: time, date and description
come from the event, and `Extratime` is `No` exactly when the event's
extra-hours capture cell is empty. -/
def mkSalida (rec : LedgerRecord) (e : RawEvent) : Salida :=
  { colaborador := rec.colaborador, horaSalida := e.hora
  , fechaSalida := e.fecha, idCal := rec.idCal
  , descripcion := e.descripcion
  , extratime := if e.captura == "" then "No" else "Si"
  , idRegistro := rec.idRegistro }

/-- The `j` loop of `actualizar_salidas` for one pending record: every raw-log
position is inspected from the tail; at each position holding the record's
source event id, the forward scan runs and a `Salida` is collected when an
exit is found. -/
def salidasDeRegistro (eventos : List RawEvent) (rec : LedgerRecord) :
    List Salida :=
  (List.range eventos.length).reverse.filterMap fun p =>
    if (eventos.getD p default).id == rec.idRegistro then
      (primeraSalidaDesde eventos p rec.colaborador).map (mkSalida rec)
    else none

/-- SistemaAsistencia.actualizar_salidas: the ledger is walked from its last
row to its first, and each record with an empty `HoraSalida` contributes the
exit updates found for it. -/
def actualizarSalidas (cal : List LedgerRecord) (eventos : List RawEvent) :
    List Salida :=
  (cal.reverse.filter (fun r => r.horaSalida == "")).flatMap
    (salidasDeRegistro eventos)

/-- Cell writes of `_actualizar_salidas_sheets` on one ledger row. -/
def cerrarRegistro (s : Salida) (r : LedgerRecord) : LedgerRecord :=
  { r with horaSalida := s.horaSalida, fechaSalida := s.fechaSalida,
           descripcion := s.descripcion, extratime := s.extratime }

/-- Row lookup of the batch writers: the update lands on the first ledger row
whose `ID_Calendario` equals the sought key; with no such row the update is
dropped. -/
def aplicarEnPrimera (cal : List LedgerRecord) (clave : String)
    (f : LedgerRecord → LedgerRecord) : List LedgerRecord :=
  match cal with
  | [] => []
  | r :: rs =>
    if r.idCal == clave then f r :: rs
    else r :: aplicarEnPrimera rs clave f

/-- SistemaAsistencia._actualizar_salidas_sheets: the batched patches applied
in order.  (The row lookup of the source uses the sheet as read before the
batch; since the patches never change the `ID_Calendario` column, applying
them sequentially is equivalent.) -/
def aplicarSalidas (cal : List LedgerRecord) (ss : List Salida) :
    List LedgerRecord :=
  ss.foldl (fun c s => aplicarEnPrimera c s.idCal (cerrarRegistro s)) cal

/-- One full exit-matching pass over in-memory tables: compute the pending
exits and write them back. -/
def pasoSalidas (cal : List LedgerRecord) (eventos : List RawEvent) :
    List LedgerRecord :=
  aplicarSalidas cal (actualizarSalidas cal eventos)

/-- Model of Python `list.index`: position of the first occurrence, `none`
models the `ValueError` raised when the element is absent. -/
def indexDe (l : List String) (x : String) : Option Nat :=
  l.findIdx? (fun y => y == x)

/-- Day-range decoding of `calcular_minutos`: split the rule's `dias` cell on
`-`, look the first and the last piece up in `dias_name` (raising, hence
`none`, when absent) and take the inclusive slice between the two positions. -/
def rangoDias (dias : String) : Option (List String) :=
  let partes := (dividir '-' dias.data).map (fun l => String.mk l)
  match indexDe diasName (partes.headD ""),
        indexDe diasName (partes.getLastD "") with
  | some inicio, some fin =>
      some ((diasName.drop inicio).take (fin + 1 - inicio))
  | _, _ => none

/-- Outcome of the schedule-rule loop of `calcular_minutos` for one record. -/
inductive ResultadoRegla where
  /-- A `list.index` call raised: the whole stage aborts. -/
  | excepcion : ResultadoRegla
  /-- The loop finished without a break: no applicable rule. -/
  | sinRegla : ResultadoRegla
  /-- A rule applied; the overtime accrued, in seconds. -/
  | regla (extrasSeg : Int) : ResultadoRegla
deriving DecidableEq

/-- The schedule-rule loop of `calcular_minutos`: rules are scanned in sheet
order; a rule whose decoded day range contains the record's weekday and whose
window bounds both parse ends the loop, accruing overtime for the time before
the window start and after the window end (each only when positive); a rule
with an unparseable window is skipped; an undecodable day range raises. -/
def buscarRegla (reglas : List ScheduleRule) (dia : String)
    (entrada salida : Nat) : ResultadoRegla :=
  match reglas with
  | [] => .sinRegla
  | r :: rs =>
    match rangoDias r.dias with
    | none => .excepcion
    | some rango =>
      if rango.contains dia then
        match parsearHora r.horaEntrada, parsearHora r.horaSalida with
        | some inicio, some fin =>
          let extras1 : Int :=
            if entrada < inicio then (inicio : Int) - (entrada : Int) else 0
          let extras2 : Int :=
            if fin < salida then (salida : Int) - (fin : Int) else 0
          .regla (extras1 + extras2)
        | _, _ => buscarRegla rs dia entrada salida
      else buscarRegla rs dia entrada salida

/-- Total worked minutes of `calcular_minutos`: the entry-to-exit difference
in seconds divided by 60 with truncation toward zero (Python `int()` of the
float quotient), plus 1440 when the truncated value is negative. -/
def rawMinutos (entrada salida : Nat) : Int :=
  let m := Int.tdiv ((salida : Int) - (entrada : Int)) 60
  if m < 0 then m + 1440 else m

/-- Body of the per-record iteration of `calcular_minutos`.  `none` models an
exception (undecodable schedule day range or unparseable entry date), which
aborts the stage; `some none` a record that is skipped (not pending, or a
time that fails to parse); `some (some c)` a computed update.  The float
accumulation of `minutos_extras` and the final `int(...)` conversions are
modelled by exact arithmetic in seconds with truncating division. -/
def calculoDeRegistro (reglas : List ScheduleRule) (r : LedgerRecord) :
    Option (Option Calculo) :=
  if r.minutos = "" ∧ r.horaSalida ≠ "" then
    let reglasColab := reglas.filter (fun h => h.colaborador == r.colaborador)
    match parsearHora r.horaEntrada, parsearHora r.horaSalida with
    | some entrada, some salida =>
      let minutos := rawMinutos entrada salida
      match parseFecha r.fechaEntrada with
      | none => none
      | some fecha =>
        match buscarRegla reglasColab (diaEspanol fecha) entrada salida with
        | .excepcion => none
        | .sinRegla => some (some ⟨minutos, 0, 0, r.idCal⟩)
        | .regla extrasSeg =>
          some (some ⟨minutos, Int.tdiv (60 * minutos - extrasSeg) 60,
                      Int.tdiv extrasSeg 60, r.idCal⟩)
    | _, _ => some none
  else some none

/-- The record iteration of `calcular_minutos` over an already-reversed
ledger: updates are collected in iteration order and any exception aborts the
stage before anything is written. -/
def calcularMinutosLista (reglas : List ScheduleRule) :
    List LedgerRecord → Option (List Calculo)
  | [] => some []
  | r :: rs =>
    match calculoDeRegistro reglas r with
    | none => none
    | some none => calcularMinutosLista reglas rs
    | some (some c) =>
      match calcularMinutosLista reglas rs with
      | none => none
      | some cs => some (c :: cs)

/-- SistemaAsistencia.calcular_minutos on in-memory tables: the ledger is
walked from its last row to its first; `none` models the stage failing via an
exception (nothing is written in that case). -/
def calcularMinutos (reglas : List ScheduleRule) (cal : List LedgerRecord) :
    Option (List Calculo) :=
  calcularMinutosLista reglas cal.reverse

/-- Cell writes of `_actualizar_minutos_sheets` on one ledger row. -/
def escribirCalculo (c : Calculo) (r : LedgerRecord) : LedgerRecord :=
  { r with minutos := toString c.minutos,
           minutosNormales := toString c.minutosNormales,
           minutosExtras := toString c.minutosExtras }

/-- SistemaAsistencia._actualizar_minutos_sheets: batched patches applied in
order, each landing on the first row with the matching `ID_Calendario`. -/
def aplicarCalculos (cal : List LedgerRecord) (cs : List Calculo) :
    List LedgerRecord :=
  cs.foldl (fun l c => aplicarEnPrimera l c.idCal (escribirCalculo c)) cal

/-- One full minutes-calculator pass over in-memory tables: `none` when the
stage aborts (no write happens), otherwise the updated ledger. -/
def pasoMinutos (reglas : List ScheduleRule) (cal : List LedgerRecord) :
    Option (List LedgerRecord) :=
  (calcularMinutos reglas cal).map (aplicarCalculos cal)

/-- Sample pending ledger record: entry 09:00:00, exit 17:30:00 on Monday
2025-10-06, minute cells still empty. -/
def registroBase : LedgerRecord :=
  { colaborador := "Ana", horaEntrada := "09:00:00", horaSalida := "17:30:00"
  , fechaEntrada := "2025-10-06", fechaSalida := "2025-10-06"
  , descripcion := "", extratime := "No", minutos := ""
  , minutosNormales := "", minutosExtras := "", idCal := "CAL1"
  , idRegistro := "7" }

/-- Sample schedule rule: Ana, Monday to Friday, window 09:00 to 18:00. -/
def reglaBase : ScheduleRule :=
  { colaborador := "Ana", dias := "Lunes-Viernes"
  , horaEntrada := "09:00:00", horaSalida := "18:00:00" }

/-- Pending record whose entry time carries seconds (08:30:30 to 17:00:00). -/
def registroSegundos : LedgerRecord :=
  { registroBase with horaEntrada := "08:30:30", horaSalida := "17:00:00",
                      idCal := "CAL5" }

/-- Pending record matching the spec's two-sided overtime example
(08:30:00 to 18:45:00). -/
def registroExtremos : LedgerRecord :=
  { registroBase with horaEntrada := "08:30:00", horaSalida := "18:45:00",
                      idCal := "CAL5W" }

/-- Pending record whose exit lies 30 seconds before its entry. -/
def registroNegativo : LedgerRecord :=
  { registroBase with horaEntrada := "22:00:30", horaSalida := "22:00:00",
                      idCal := "CAL6" }

/-- Pending overnight record (entry 22:00:00, exit 02:00:00). -/
def registroNocturno : LedgerRecord :=
  { registroBase with horaEntrada := "22:00:00", horaSalida := "02:00:00",
                      idCal := "CAL6W" }

/-- Ledger record whose minute cells are already filled. -/
def registroListo : LedgerRecord :=
  { registroBase with minutos := "510", minutosNormales := "510",
                      minutosExtras := "0", idCal := "CAL0", idRegistro := "5" }

/-- Pending record with a malformed exit time. -/
def registroMalHora : LedgerRecord :=
  { registroBase with horaSalida := "25:99", idCal := "CAL8",
                      idRegistro := "9" }

/-- Second well-formed pending record. -/
def registroBien : LedgerRecord :=
  { registroBase with idCal := "CAL9", idRegistro := "10" }

/-- Raw entry event of the sample log. -/
def eventoEntrada (i colab h : String) : RawEvent :=
  { id := i, colaborador := colab, etapa := "Entrada", fecha := "2025-10-06"
  , hora := h, descripcion := "", captura := "" }

/-- Raw exit event of the sample log. -/
def eventoSalida (i colab h : String) : RawEvent :=
  { id := i, colaborador := colab, etapa := "Salida", fecha := "2025-10-06"
  , hora := h, descripcion := "fin", captura := "" }

/-- Open ledger record created from the sample entry event with id 1. -/
def registroAbiertoA : LedgerRecord :=
  { registroBase with horaSalida := "", idCal := "C1", idRegistro := "1" }

/-- Open ledger record created from the sample entry event with id 2. -/
def registroAbiertoB : LedgerRecord :=
  { registroBase with horaSalida := "", idCal := "C2", idRegistro := "2" }

/-- Raw log with two entries of the same collaborator followed by a single
exit of that collaborator. -/
def eventosDoble : List RawEvent :=
  [eventoEntrada "1" "Ana" "09:00:00", eventoEntrada "2" "Ana" "10:00:00",
   eventoSalida "3" "Ana" "18:00:00"]

/-- Raw log with two entry events; the first is the anchor of
`registroBase`. -/
def eventosDos : List RawEvent :=
  [eventoEntrada "7" "Ana" "09:00:00", eventoEntrada "8" "Bea" "10:00:00"]

/-- The first open record closed with the data of the single exit event of
`eventosDoble`. -/
def registroCerradoA : LedgerRecord :=
  { registroAbiertoA with horaSalida := "18:00:00",
                          fechaSalida := "2025-10-06",
                          descripcion := "fin", extratime := "No" }

/-- The second open record closed with the data of the same exit event of
`eventosDoble`. -/
def registroCerradoB : LedgerRecord :=
  { registroAbiertoB with horaSalida := "18:00:00",
                          fechaSalida := "2025-10-06",
                          descripcion := "fin", extratime := "No" }

/-- Rule that the schedule loop passes over for a given weekday: its day
range decodes, but either the weekday is not in the range or one of its
window bounds fails to parse. -/
def reglaOmitida (regla : ScheduleRule) (dia : String) : Prop :=
  ∃ rango, rangoDias regla.dias = some rango ∧
    (rango.contains dia = false ∨ parsearHora regla.horaEntrada = none ∨
      parsearHora regla.horaSalida = none)

/-- Helper: the schedule loop skips every passed-over rule of a prefix. -/
theorem buscarRegla_append (rs1 rs2 : List ScheduleRule) (dia : String)
    (entrada salida : Nat) (h : ∀ q ∈ rs1, reglaOmitida q dia) :
    buscarRegla (rs1 ++ rs2) dia entrada salida =
      buscarRegla rs2 dia entrada salida := by
  induction rs1 with
  | nil => rfl
  | cons q qs ih =>
    obtain ⟨rango, hrango, hskip⟩ := h q (List.mem_cons_self ..)
    have ih2 := ih (fun x hx => h x (List.mem_cons_of_mem _ hx))
    rcases hskip with hdia | hen | hsa
    · simp only [List.cons_append, buscarRegla, hrango, hdia]
      simpa using ih2
    · simp only [List.cons_append, buscarRegla, hrango, hen]
      rcases hcon : rango.contains dia <;>
        rcases hx : parsearHora q.horaSalida <;> simpa using ih2
    · simp only [List.cons_append, buscarRegla, hrango, hsa]
      rcases hcon : rango.contains dia <;>
        rcases hx : parsearHora q.horaEntrada <;> simpa using ih2

/-- Helper: a rule whose range contains the weekday and whose window parses
ends the schedule loop with the two-sided overtime of the source, stated in
clipped (max) form. -/
theorem buscarRegla_head (regla : ScheduleRule) (rs : List ScheduleRule)
    (dia : String) (entrada salida inicio fin : Nat) (rango : List String)
    (hrango : rangoDias regla.dias = some rango)
    (hdia : rango.contains dia = true)
    (hini : parsearHora regla.horaEntrada = some inicio)
    (hfin : parsearHora regla.horaSalida = some fin) :
    buscarRegla (regla :: rs) dia entrada salida =
      .regla (max 0 ((inicio : Int) - (entrada : Int)) +
              max 0 ((salida : Int) - (fin : Int))) := by
  simp only [buscarRegla, hrango, hdia, hini, hfin, if_true]
  congr 1
  have h1 : (if entrada < inicio then (inicio : Int) - (entrada : Int) else 0)
      = max 0 ((inicio : Int) - (entrada : Int)) := by
    rcases Nat.lt_or_ge entrada inicio with hlt | hge
    · rw [if_pos hlt]; omega
    · rw [if_neg (by omega)]; omega
  have h2 : (if fin < salida then (salida : Int) - (fin : Int) else 0)
      = max 0 ((salida : Int) - (fin : Int)) := by
    rcases Nat.lt_or_ge fin salida with hlt | hge
    · rw [if_pos hlt]; omega
    · rw [if_neg (by omega)]; omega
  rw [h1, h2]

/-- C1, counterexample: for the pending record 09:00:00 to 17:30:00 with no
schedule rules at all (so the Schedule Resolver finds no matching rule), the
Minutes Calculator writes `(total, regular, overtime) = (510, 0, 0)` and not
`regular_minutes = raw_minutes = 510` as the claim states: the worked minutes
stay in the total column only and the regular column is written as 0. -/
theorem c1_counterexample :
    calcularMinutos [] [registroBase] =
      some [{ minutos := 510, minutosNormales := 0, minutosExtras := 0,
              idCal := "CAL1" }] ∧
    calcularMinutos [] [registroBase] ≠
      some [{ minutos := 510, minutosNormales := 510, minutosExtras := 0,
              idCal := "CAL1" }] := by
  constructor
  · rfl
  · decide

/-- C5, counterexample: schedule window 09:00-18:00 on a matching weekday,
entry 08:30:30 and exit 17:00:00.  The code writes
`(total, regular, overtime) = (509, 479, 29)`, but the claim's identity
`regular_minutes = raw_minutes - overtime_minutes` demands
`509 - 29 = 480`: with sub-minute clock times the regular column is the
truncation of `raw - exact_overtime`, not the difference of the two
truncated columns. -/
theorem c5_counterexample :
    calcularMinutos [reglaBase] [registroSegundos] =
      some [{ minutos := 509, minutosNormales := 479, minutosExtras := 29,
              idCal := "CAL5" }] ∧
    (479 : Int) ≠ 509 - 29 := by
  constructor
  · rfl
  · decide

/-- C6, counterexample: entry 22:00:30 and exit 22:00:00.  The exact
difference is -0.5 minutes, so by the claim (add 1440 to the negative
difference, then truncate) `raw_minutes` should be 1439; the code truncates
first (`int(-0.5) = 0`), sees a non-negative value, and writes 0. -/
theorem c6_counterexample :
    calcularMinutos [] [registroNegativo] =
      some [{ minutos := 0, minutosNormales := 0, minutosExtras := 0,
              idCal := "CAL6" }] ∧
    (0 : Int) ≠ 1439 := by
  constructor
  · rfl
  · decide

/-- C4, counterexample: on an empty ledger `procesar_nuevas_entradas` returns
failure immediately (the source checks `filas_calendario == 0` and returns
`False`); it does not scan the raw log from the start, so the entry event is
not ingested as the claim states. -/
theorem c4_counterexample :
    procesarNuevasEntradas [] [eventoEntrada "1" "Ana" "09:00:00"] = none ∧
    (none : Option (List LedgerRecord)) ≠
      some [nuevaEntrada (eventoEntrada "1" "Ana" "09:00:00")] := by
  constructor
  · rfl
  · decide

/-- C10: two distinct open records of the same collaborator, both of whose
entry events precede the single exit event of the log; one exit-matching pass
closes both records, copying the same exit event's time, date, description
and extra-hours answer into each: a matched exit event is not consumed. -/
theorem c10_salida_compartida :
    registroAbiertoA ≠ registroAbiertoB ∧
    registroAbiertoA.horaSalida = "" ∧
    registroAbiertoB.horaSalida = "" ∧
    pasoSalidas [registroAbiertoA, registroAbiertoB] eventosDoble =
      [registroCerradoA, registroCerradoB] ∧
    registroCerradoA.horaSalida = registroCerradoB.horaSalida ∧
    registroCerradoA.fechaSalida = registroCerradoB.fechaSalida := by
  refine ⟨by decide, rfl, rfl, rfl, rfl, rfl⟩

/-- C1 (amended): for every pending record whose entry time, exit time and
entry date parse, if the schedule loop finds no applicable rule, the Minutes
Calculator writes `total_minutes = raw_minutes` but `regular_minutes = 0` and
`overtime_minutes = 0`: the declared fallback records the raw total while
leaving the regular/overtime split at zero, instead of counting all worked
minutes as regular. -/
theorem c1_sin_regla (reglas : List ScheduleRule) (r : LedgerRecord)
    (entrada salida : Nat) (fecha : Fecha)
    (hpend : r.minutos = "" ∧ r.horaSalida ≠ "")
    (he : parsearHora r.horaEntrada = some entrada)
    (hs : parsearHora r.horaSalida = some salida)
    (hf : parseFecha r.fechaEntrada = some fecha)
    (hbr : buscarRegla (reglas.filter (fun h => h.colaborador == r.colaborador))
        (diaEspanol fecha) entrada salida = .sinRegla) :
    calculoDeRegistro reglas r =
      some (some { minutos := rawMinutos entrada salida, minutosNormales := 0,
                   minutosExtras := 0, idCal := r.idCal }) := by
  unfold calculoDeRegistro
  rw [if_pos hpend, he, hs, hf]
  simp only [hbr]

/-- C1, witness at the concrete counterexample data. -/
theorem c1_sin_regla_witness :
    calculoDeRegistro [] registroBase =
      some (some { minutos := rawMinutos 32400 63000, minutosNormales := 0,
                   minutosExtras := 0, idCal := "CAL1" }) :=
  c1_sin_regla [] registroBase 32400 63000 ⟨2025, 10, 6⟩
    ⟨rfl, by decide⟩ rfl rfl rfl rfl

/-- C5 (amended): for every pending record (times and date parsing) whose
collaborator's rule list decomposes as passed-over rules followed by a rule
whose decoded day range contains the entry weekday and whose window parses,
the Minutes Calculator computes the overtime in seconds as
`max(0, window_start - entry) + max(0, exit - window_end)`, writes
`overtime_minutes` as that quantity truncated to minutes and
`regular_minutes` as the truncation of `raw_minutes - exact_overtime`
(`Int.tdiv (60 * raw - overtime_seconds) 60`).  On whole-minute inputs this
equals `raw_minutes - overtime_minutes`; with window 09:00-18:00, entry
08:30 and exit 18:45 the overtime is 75 (see the witness). -/
theorem c5_con_regla (reglas : List ScheduleRule) (r : LedgerRecord)
    (entrada salida : Nat) (fecha : Fecha)
    (rs1 rs2 : List ScheduleRule) (regla : ScheduleRule)
    (inicio fin : Nat) (rango : List String)
    (hpend : r.minutos = "" ∧ r.horaSalida ≠ "")
    (he : parsearHora r.horaEntrada = some entrada)
    (hs : parsearHora r.horaSalida = some salida)
    (hf : parseFecha r.fechaEntrada = some fecha)
    (hfiltro : reglas.filter (fun h => h.colaborador == r.colaborador)
        = rs1 ++ regla :: rs2)
    (homit : ∀ q ∈ rs1, reglaOmitida q (diaEspanol fecha))
    (hrango : rangoDias regla.dias = some rango)
    (hdia : rango.contains (diaEspanol fecha) = true)
    (hini : parsearHora regla.horaEntrada = some inicio)
    (hfin : parsearHora regla.horaSalida = some fin) :
    calculoDeRegistro reglas r =
      some (some { minutos := rawMinutos entrada salida,
                   minutosNormales := Int.tdiv (60 * rawMinutos entrada salida -
                     (max 0 ((inicio : Int) - (entrada : Int)) +
                       max 0 ((salida : Int) - (fin : Int)))) 60,
                   minutosExtras := Int.tdiv
                     (max 0 ((inicio : Int) - (entrada : Int)) +
                       max 0 ((salida : Int) - (fin : Int))) 60,
                   idCal := r.idCal }) := by
  unfold calculoDeRegistro
  rw [if_pos hpend, he, hs, hf]
  have hbr : buscarRegla
      (reglas.filter (fun h => h.colaborador == r.colaborador))
      (diaEspanol fecha) entrada salida =
      .regla (max 0 ((inicio : Int) - (entrada : Int)) +
              max 0 ((salida : Int) - (fin : Int))) := by
    rw [hfiltro, buscarRegla_append rs1 (regla :: rs2) _ _ _ homit,
        buscarRegla_head regla rs2 _ _ _ _ _ _ hrango hdia hini hfin]
  simp only [hbr]

/-- C5, witness at the spec's example: window 09:00-18:00, entry 08:30:00,
exit 18:45:00 on a Monday: overtime 75 minutes, regular 615 - 75 = 540. -/
theorem c5_con_regla_witness :
    calculoDeRegistro [reglaBase] registroExtremos =
      some (some { minutos := 615, minutosNormales := 540,
                   minutosExtras := 75, idCal := "CAL5W" }) := by
  rw [c5_con_regla [reglaBase] registroExtremos 30600 67500 ⟨2025, 10, 6⟩
    [] [] reglaBase 32400 64800
    ["Lunes", "Martes", "Miercoles", "Jueves", "Viernes"]
    ⟨rfl, by decide⟩ rfl rfl rfl rfl
    (fun q hq => absurd hq (List.not_mem_nil q)) rfl rfl rfl rfl]
  rfl

/-- C6 (amended): for every pending record with parseable entry and exit
times whose processing does not abort, the written `raw_minutes` is the
truncation toward zero of the entry-to-exit difference in minutes, with 1440
added only when that already-truncated value is negative (the code truncates
before the rollover test, so a sub-minute negative difference yields 0, not
1439).  The overnight example 22:00:00 to 02:00:00 yields 240 (witness). -/
theorem c6_truncamiento (reglas : List ScheduleRule) (r : LedgerRecord)
    (entrada salida : Nat) (fecha : Fecha)
    (hpend : r.minutos = "" ∧ r.horaSalida ≠ "")
    (he : parsearHora r.horaEntrada = some entrada)
    (hs : parsearHora r.horaSalida = some salida)
    (hf : parseFecha r.fechaEntrada = some fecha)
    (hnoexc : buscarRegla
        (reglas.filter (fun h => h.colaborador == r.colaborador))
        (diaEspanol fecha) entrada salida ≠ .excepcion) :
    (calculoDeRegistro reglas r).map (Option.map Calculo.minutos) =
      some (some (if Int.tdiv ((salida : Int) - (entrada : Int)) 60 < 0 then
        Int.tdiv ((salida : Int) - (entrada : Int)) 60 + 1440
      else Int.tdiv ((salida : Int) - (entrada : Int)) 60)) := by
  unfold calculoDeRegistro
  rw [if_pos hpend, he, hs, hf]
  rcases hbr : buscarRegla
      (reglas.filter (fun h => h.colaborador == r.colaborador))
      (diaEspanol fecha) entrada salida with _ | _ | extrasSeg
  · exact absurd hbr hnoexc
  · simp only [hbr]; rfl
  · simp only [hbr]; rfl

/-- C6, witness at the overnight example: entry 22:00:00, exit 02:00:00,
raw minutes 240. -/
theorem c6_truncamiento_witness :
    (calculoDeRegistro [] registroNocturno).map (Option.map Calculo.minutos) =
      some (some 240) := by
  rw [c6_truncamiento [] registroNocturno 79200 7200 ⟨2025, 10, 6⟩
    ⟨rfl, by decide⟩ rfl rfl rfl (by decide)]
  rfl

/-- Helper: a record one of whose times fails to parse is skipped by
`calcular_minutos` (yields `some none`). -/
theorem calculoDeRegistro_omitido (reglas : List ScheduleRule)
    (r : LedgerRecord)
    (hbad : parsearHora r.horaEntrada = none ∨
      parsearHora r.horaSalida = none) :
    calculoDeRegistro reglas r = some none := by
  unfold calculoDeRegistro
  split
  · cases he : parsearHora r.horaEntrada with
    | none => simp only [he]
    | some en =>
      cases hs : parsearHora r.horaSalida with
      | none => simp only [he, hs]
      | some sa =>
        rcases hbad with hb | hb
        · rw [he] at hb; exact absurd hb (by simp)
        · rw [hs] at hb; exact absurd hb (by simp)
  · rfl

/-- Helper: skipped records contribute nothing to the update list and do not
interrupt the iteration. -/
theorem calcularMinutosLista_omite (reglas : List ScheduleRule)
    (r : LedgerRecord) (hr : calculoDeRegistro reglas r = some none)
    (a b : List LedgerRecord) :
    calcularMinutosLista reglas (a ++ r :: b) =
      calcularMinutosLista reglas (a ++ b) := by
  induction a with
  | nil => simp only [List.nil_append, calcularMinutosLista, hr]
  | cons x xs ih =>
    simp only [List.cons_append, calcularMinutosLista, List.append_eq, ih]

/-- C8: a pending record whose entry or exit time fails to parse is skipped
and the rest of the batch is processed exactly as if the record were absent:
the stage result over the ledger with the bad record equals the result over
the ledger without it (in particular the stage does not abort). -/
theorem c8_registro_omitido (reglas : List ScheduleRule)
    (l1 l2 : List LedgerRecord) (r : LedgerRecord)
    (hpend : r.minutos = "" ∧ r.horaSalida ≠ "")
    (hbad : parsearHora r.horaEntrada = none ∨
      parsearHora r.horaSalida = none) :
    calcularMinutos reglas (l1 ++ r :: l2) =
      calcularMinutos reglas (l1 ++ l2) := by
  unfold calcularMinutos
  have h1 : (l1 ++ r :: l2).reverse = l2.reverse ++ r :: l1.reverse := by
    simp
  have h2 : (l1 ++ l2).reverse = l2.reverse ++ l1.reverse := by simp
  rw [h1, h2, calcularMinutosLista_omite reglas r
    (calculoDeRegistro_omitido reglas r hbad)]

/-- C8, witness: the malformed exit time `25:99` skips only its own record. -/
theorem c8_registro_omitido_witness :
    calcularMinutos [] [registroBien, registroMalHora, registroBase] =
      calcularMinutos [] [registroBien, registroBase] :=
  c8_registro_omitido [] [registroBien] [registroBase] registroMalHora
    ⟨rfl, by decide⟩ (Or.inr rfl)

/-- Helper: a computed update can only come from a record whose `Minutos`
cell is empty, and it carries that record's row key. -/
theorem calculoDeRegistro_pendiente (reglas : List ScheduleRule)
    (r : LedgerRecord) (c : Calculo)
    (h : calculoDeRegistro reglas r = some (some c)) :
    r.minutos = "" ∧ c.idCal = r.idCal := by
  unfold calculoDeRegistro at h
  by_cases hcond : r.minutos = "" ∧ r.horaSalida ≠ ""
  case neg => rw [if_neg hcond] at h; exact absurd h (by simp)
  case pos =>
    rw [if_pos hcond] at h
    refine ⟨hcond.1, ?_⟩
    rcases he : parsearHora r.horaEntrada with _ | en
    · simp only [he] at h
      exact Option.noConfusion (Option.some.inj h)
    · simp only [he] at h
      rcases hs : parsearHora r.horaSalida with _ | sa
      · simp only [hs] at h
        exact Option.noConfusion (Option.some.inj h)
      · simp only [hs] at h
        rcases hf : parseFecha r.fechaEntrada with _ | fecha
        · simp only [hf] at h
          exact Option.noConfusion h
        · simp only [hf] at h
          rcases hb : buscarRegla
              (reglas.filter (fun q => q.colaborador == r.colaborador))
              (diaEspanol fecha) en sa with _ | _ | ex
          · simp only [hb] at h
            exact Option.noConfusion h
          · simp only [hb, Option.some.injEq] at h
            rw [← h]
          · simp only [hb, Option.some.injEq] at h
            rw [← h]

/-- Helper: a record found at a position with a different row key is left in
place by a single batch-update row write. -/
theorem aplicarEnPrimera_conserva (cal : List LedgerRecord) (clave : String)
    (f : LedgerRecord → LedgerRecord) (i : Nat) (r : LedgerRecord)
    (hi : cal[i]? = some r) (hne : r.idCal ≠ clave) :
    (aplicarEnPrimera cal clave f)[i]? = some r := by
  induction cal generalizing i with
  | nil => simp at hi
  | cons x xs ih =>
    unfold aplicarEnPrimera
    by_cases hx : x.idCal = clave
    · rw [if_pos (beq_iff_eq.mpr hx)]
      cases i with
      | zero =>
        obtain rfl : x = r := by simpa using hi
        exact absurd hx hne
      | succ n => simpa using hi
    · rw [if_neg (by simpa using hx)]
      cases i with
      | zero => simpa using hi
      | succ n =>
        simp only [List.getElem?_cons_succ] at hi ⊢
        exact ih n hi

/-- Helper: the whole minutes batch write leaves a record in place when no
update carries its row key. -/
theorem aplicarCalculos_conserva (cs : List Calculo) (cal : List LedgerRecord)
    (i : Nat) (r : LedgerRecord) (hi : cal[i]? = some r)
    (h : ∀ c ∈ cs, c.idCal ≠ r.idCal) :
    (aplicarCalculos cal cs)[i]? = some r := by
  induction cs generalizing cal with
  | nil => simpa [aplicarCalculos] using hi
  | cons c cs2 ih =>
    unfold aplicarCalculos at ih ⊢
    simp only [List.foldl_cons]
    exact ih (aplicarEnPrimera cal c.idCal (escribirCalculo c))
      (aplicarEnPrimera_conserva cal c.idCal _ i r hi
        (fun he => h c (List.mem_cons_self ..) he.symm))
      (fun c2 hc2 => h c2 (List.mem_cons_of_mem _ hc2))

/-- Helper: every computed update originates in some record of the iterated
list. -/
theorem calcularMinutosLista_origen (reglas : List ScheduleRule)
    (l : List LedgerRecord) (cs : List Calculo)
    (h : calcularMinutosLista reglas l = some cs) :
    ∀ c ∈ cs, ∃ r, r ∈ l ∧ calculoDeRegistro reglas r = some (some c) := by
  induction l generalizing cs with
  | nil =>
    simp only [calcularMinutosLista, Option.some.injEq] at h
    intro c hc
    rw [← h] at hc
    exact absurd hc (List.not_mem_nil c)
  | cons r rs ih =>
    unfold calcularMinutosLista at h
    rcases hcr : calculoDeRegistro reglas r with _ | oc
    · rw [hcr] at h; exact absurd h (by simp)
    · rcases oc with _ | c0
      · rw [hcr] at h
        intro c hc
        obtain ⟨r2, hr2, hc2⟩ := ih cs h c hc
        exact ⟨r2, List.mem_cons_of_mem _ hr2, hc2⟩
      · rw [hcr] at h
        rcases hrest : calcularMinutosLista reglas rs with _ | cs0 <;>
          rw [hrest] at h
        · exact absurd h (by simp)
        · obtain rfl : c0 :: cs0 = cs := Option.some_inj.mp h
          intro c hc
          rcases List.mem_cons.mp hc with rfl | hmem
          · exact ⟨r, List.mem_cons_self .., hcr⟩
          · obtain ⟨r2, hr2, hc2⟩ := ih cs0 hrest c hmem
            exact ⟨r2, List.mem_cons_of_mem _ hr2, hc2⟩

/-- C7: a ledger record whose `Minutos` cell is already non-empty is excluded
from the pending set of a Minutes Calculator pass (no computed update carries
its row key) and the pass leaves the record unchanged at its position, given
that the ledger's row keys are distinct. -/
theorem c7_sin_recalculo (reglas : List ScheduleRule)
    (cal : List LedgerRecord) (r : LedgerRecord) (i : Nat) (cs : List Calculo)
    (hn : (cal.map LedgerRecord.idCal).Nodup)
    (hi : cal[i]? = some r) (hm : r.minutos ≠ "")
    (hcs : calcularMinutos reglas cal = some cs) :
    (∀ c ∈ cs, c.idCal ≠ r.idCal) ∧ (aplicarCalculos cal cs)[i]? = some r := by
  have hmem : r ∈ cal := List.getElem?_mem hi
  have h1 : ∀ c ∈ cs, c.idCal ≠ r.idCal := by
    intro c hc hceq
    obtain ⟨r2, hr2mem, hr2⟩ :=
      calcularMinutosLista_origen reglas cal.reverse cs hcs c hc
    have hr2mem2 : r2 ∈ cal := List.mem_reverse.mp hr2mem
    obtain ⟨hr2pend, hcid⟩ := calculoDeRegistro_pendiente reglas r2 c hr2
    have hrr : r2 = r :=
      List.inj_on_of_nodup_map hn hr2mem2 hmem (by rw [← hcid, hceq])
    rw [hrr] at hr2pend
    exact hm hr2pend
  exact ⟨h1, aplicarCalculos_conserva cs cal i r hi h1⟩

/-- C7, witness: a ledger holding one finished and one pending record; the
pass leaves the finished record untouched in place. -/
theorem c7_sin_recalculo_witness :
    (aplicarCalculos [registroListo, registroBase]
      [{ minutos := 510, minutosNormales := 0, minutosExtras := 0,
         idCal := "CAL1" }])[0]? = some registroListo :=
  (c7_sin_recalculo [] [registroListo, registroBase] registroListo 0
    [{ minutos := 510, minutosNormales := 0, minutosExtras := 0,
       idCal := "CAL1" }]
    (by decide) rfl (by decide) rfl).2

/-- Helper: specification of `List.findIdx?` with an arbitrary start index:
the returned index is offset by the start, lands on an element satisfying the
predicate, and every earlier element fails it. -/
theorem findIdx?_spec {α : Type} (p : α → Bool) :
    ∀ (l : List α) (s k : Nat), List.findIdx? p l s = some k →
      s ≤ k ∧ k - s < l.length ∧
      (∀ e, l[k - s]? = some e → p e = true) ∧
      (∀ j e, j < k - s → l[j]? = some e → p e = false) := by
  intro l
  induction l with
  | nil =>
    intro s k h
    rw [List.findIdx?_nil] at h
    exact absurd h (by simp)
  | cons x xs ih =>
    intro s k h
    rw [List.findIdx?_cons] at h
    by_cases hp : p x
    · rw [if_pos hp] at h
      obtain rfl : s = k := by simpa using h
      refine ⟨le_refl _, by simp, ?_, ?_⟩
      · intro e he
        rw [Nat.sub_self] at he
        obtain rfl : x = e := by simpa using he
        exact hp
      · intro j e hj
        rw [Nat.sub_self] at hj
        exact absurd hj (Nat.not_lt_zero j)
    · rw [if_neg hp] at h
      obtain ⟨hs, hk, hget, hlt⟩ := ih (s + 1) k h
      refine ⟨by omega, by simp only [List.length_cons]; omega, ?_, ?_⟩
      · intro e he
        have hix : k - s = (k - (s + 1)) + 1 := by omega
        rw [hix, List.getElem?_cons_succ] at he
        exact hget e he
      · intro j e hj he
        cases j with
        | zero =>
          obtain rfl : x = e := by simpa using he
          simpa using hp
        | succ n =>
          rw [List.getElem?_cons_succ] at he
          exact hlt n e (by omega) he

/-- Helper: the backward anchor scan lands at or after any position holding
the sought id, on a position holding the sought id. -/
theorem ultimaPosicion_spec (eventos : List RawEvent) (i : String) (p : Nat)
    (ev : RawEvent) (hp : eventos[p]? = some ev) (hid : ev.id = i) :
    ∃ q, p ≤ q ∧ q < eventos.length ∧ ultimaPosicion eventos i = q ∧
      ∃ e2, eventos[q]? = some e2 ∧ e2.id = i := by
  obtain ⟨hplen, hpel⟩ := List.getElem?_eq_some.mp hp
  have hrevp : eventos.reverse[eventos.length - 1 - p]? = some ev := by
    have h1 : eventos.length - 1 - p < eventos.reverse.length := by
      rw [List.length_reverse]; omega
    rw [List.getElem?_eq_getElem h1, List.getElem_reverse]
    have h2 : eventos.length - 1 - (eventos.length - 1 - p) = p := by omega
    simp only [h2]
    rw [← hpel]
  rcases hf : eventos.reverse.findIdx? (fun e => e.id == i) with _ | k
  · have hall := List.findIdx?_eq_none_iff.mp hf
    have hevmem : ev ∈ eventos.reverse :=
      List.mem_reverse.mpr (List.getElem?_mem hp)
    have := hall ev hevmem
    rw [hid] at this
    simp at this
  · obtain ⟨-, hklen, hget, hmin⟩ := findIdx?_spec _ _ _ _ hf
    rw [List.length_reverse] at hklen
    rw [Nat.sub_zero] at hget hmin
    refine ⟨eventos.length - 1 - k, ?_, by omega, ?_, ?_⟩
    · by_contra hlt
      push_neg at hlt
      have hjk : eventos.length - 1 - p < k := by omega
      have := hmin (eventos.length - 1 - p) ev hjk hrevp
      rw [hid] at this
      simp at this
    · unfold ultimaPosicion
      rw [hf]
    · have hkr : k < eventos.reverse.length := by
        rw [List.length_reverse]; omega
      have hrevk : eventos.reverse[k]? = some (eventos.reverse.get ⟨k, hkr⟩) :=
        List.getElem?_eq_getElem hkr
      have hpk := hget _ hrevk
      refine ⟨eventos.reverse.get ⟨k, hkr⟩, ?_, by simpa using hpk⟩
      have h3 : eventos.reverse.get ⟨k, hkr⟩ = eventos[eventos.length - 1 - k] := by
        simp only [List.get_eq_getElem]
        rw [List.getElem_reverse]
      rw [h3, List.getElem?_eq_getElem (by omega : eventos.length - 1 - k < eventos.length)]

/-- Helper: with pairwise distinct event ids, positions holding equal ids
coincide. -/
theorem posicionId_inj (eventos : List RawEvent)
    (hn : (eventos.map RawEvent.id).Nodup) (p q : Nat)
    (ep eq2 : RawEvent) (hp : eventos[p]? = some ep)
    (hq : eventos[q]? = some eq2) (hid : ep.id = eq2.id) : p = q := by
  obtain ⟨hplen, hpel⟩ := List.getElem?_eq_some.mp hp
  obtain ⟨hqlen, hqel⟩ := List.getElem?_eq_some.mp hq
  have hplen2 : p < (eventos.map RawEvent.id).length := by
    rw [List.length_map]; exact hplen
  have hqlen2 : q < (eventos.map RawEvent.id).length := by
    rw [List.length_map]; exact hqlen
  have hmap : (eventos.map RawEvent.id).get ⟨p, hplen2⟩ =
      (eventos.map RawEvent.id).get ⟨q, hqlen2⟩ := by
    simp only [List.get_eq_getElem, List.getElem_map]
    rw [hpel, hqel]; exact hid
  have := (hn.get_inj_iff.mp hmap)
  exact congrArg Fin.val this

/-- Helper: with pairwise distinct event ids, the backward anchor scan finds
exactly the position of the anchor event. -/
theorem ultimaPosicion_unica (eventos : List RawEvent) (ev : RawEvent)
    (p : Nat) (hn : (eventos.map RawEvent.id).Nodup)
    (hp : eventos[p]? = some ev) :
    ultimaPosicion eventos ev.id = p := by
  obtain ⟨q, hpq, hq, hult, e2, he2, he2id⟩ :=
    ultimaPosicion_spec eventos ev.id p ev hp rfl
  rw [hult]
  exact (posicionId_inj eventos hn q p e2 ev he2 hp he2id).symm ▸
    (posicionId_inj eventos hn q p e2 ev he2 hp he2id)

/-- C4 (amended): with a nonempty ledger whose newest record's source id
occurs in the raw log (ids pairwise distinct), Ingestion scans exactly the
suffix after that event's position and appends one open record per `Entrada`
event there, carrying the event's collaborator, time, date and id with every
other cell empty; with an empty ledger the run does not scan from the start:
it fails immediately and appends nothing. -/
theorem c4_reanudacion (cal : List LedgerRecord) (eventos : List RawEvent)
    (ultimo : LedgerRecord) (ev : RawEvent) (p : Nat)
    (hlast : cal.getLast? = some ultimo)
    (hn : (eventos.map RawEvent.id).Nodup)
    (hp : eventos[p]? = some ev) (hev : ev.id = ultimo.idRegistro) :
    procesarNuevasEntradas cal eventos =
      some (((eventos.drop (p + 1)).filter
        (fun e => e.etapa == "Entrada")).map nuevaEntrada) ∧
    (∀ e : RawEvent,
      nuevaEntrada e = { colaborador := e.colaborador, horaEntrada := e.hora,
                         horaSalida := "", fechaEntrada := e.fecha,
                         fechaSalida := "", descripcion := "", extratime := "",
                         minutos := "", minutosNormales := "",
                         minutosExtras := "", idCal := "",
                         idRegistro := e.id }) ∧
    (∀ evs : List RawEvent, procesarNuevasEntradas [] evs = none) := by
  refine ⟨?_, fun e => rfl, fun evs => rfl⟩
  have hult : ultimaPosicion eventos ultimo.idRegistro = p := by
    rw [← hev]
    exact ultimaPosicion_unica eventos ev p hn hp
  obtain ⟨hplen, -⟩ := List.getElem?_eq_some.mp hp
  cases eventos with
  | nil => simp at hplen
  | cons e0 es =>
    simp only [procesarNuevasEntradas, hlast]
    rw [hult]

/-- C4, witness at the two-event raw log anchored at the first event. -/
theorem c4_reanudacion_witness :
    procesarNuevasEntradas [registroBase] eventosDos =
      some (((eventosDos.drop 1).filter
        (fun e => e.etapa == "Entrada")).map nuevaEntrada) :=
  (c4_reanudacion [registroBase] eventosDos registroBase
    (eventoEntrada "7" "Ana" "09:00:00") 0 rfl (by decide) rfl rfl).1

/-- Helper: once the filtered suffix from some position is empty, it stays
empty from every later position. -/
theorem filter_drop_eq_nil {α : Type} (p : α → Bool) (l : List α) (m k : Nat)
    (hm : (l.drop m).filter p = []) (hmk : m ≤ k) :
    (l.drop k).filter p = [] := by
  have h1 : l.drop k = (l.drop m).drop (k - m) := by
    rw [List.drop_drop]
    congr 1
    omega
  rw [h1]
  have h2 := (List.drop_sublist (k - m) (l.drop m)).filter p
  rw [hm] at h2
  exact List.sublist_nil.mp h2

/-- Helper: the last element of a nonempty filtered list sits at a position
after which the filter is empty. -/
theorem getLast?_filter_spec {α : Type} (p : α → Bool) (l : List α) (e : α)
    (h : (l.filter p).getLast? = some e) :
    ∃ j, ∃ hj : j < l.length, l.get ⟨j, hj⟩ = e ∧ p e = true ∧
      (l.drop (j + 1)).filter p = [] := by
  induction l using List.reverseRecOn with
  | nil => simp at h
  | append_singleton l2 a ih =>
    rw [List.filter_append] at h
    by_cases hpa : p a
    · have hfa : List.filter p [a] = [a] := by simp [hpa]
      rw [hfa, List.getLast?_concat] at h
      obtain rfl : a = e := by simpa using h
      refine ⟨l2.length, by simp, ?_, hpa, ?_⟩
      · simp
      · rw [show l2.length + 1 = (l2 ++ [a]).length by simp,
          List.drop_length]
        rfl
    · have hfa : List.filter p [a] = [] := by simp [hpa]
      rw [hfa, List.append_nil] at h
      obtain ⟨j, hj, hget, hpe, hdrop⟩ := ih h
      refine ⟨j, by simp only [List.length_append]; omega, ?_, hpe, ?_⟩
      · simp only [List.get_eq_getElem] at hget ⊢
        rw [List.getElem_append_left hj]
        exact hget
      · rw [List.drop_append_of_le_length (by omega : j + 1 ≤ l2.length),
          List.filter_append, hdrop, hfa]
        rfl

/-- Helper: the successful unfolding of `procesar_nuevas_entradas`. -/
theorem procesarNuevasEntradas_eq (cal : List LedgerRecord)
    (eventos : List RawEvent) (ultimo : LedgerRecord)
    (hlast : cal.getLast? = some ultimo) (hev : eventos ≠ []) :
    procesarNuevasEntradas cal eventos =
      some (((eventos.drop
          (ultimaPosicion eventos ultimo.idRegistro + 1)).filter
        (fun e => e.etapa == "Entrada")).map nuevaEntrada) := by
  cases eventos with
  | nil => exact absurd rfl hev
  | cons e0 es => simp only [procesarNuevasEntradas, hlast]

/-- Helper: the failure cases of `procesar_nuevas_entradas`. -/
theorem procesarNuevasEntradas_none (cal : List LedgerRecord)
    (eventos : List RawEvent)
    (h : cal.getLast? = none ∨ eventos = []) :
    procesarNuevasEntradas cal eventos = none := by
  rcases h with h | h
  · cases eventos <;> simp only [procesarNuevasEntradas, h]
  · subst h
    rcases h2 : cal.getLast? with _ | u <;>
      simp only [procesarNuevasEntradas, h2]

/-- C3: if an Ingestion run over a raw log completes, returning the appended
records, then a second Ingestion run over the ledger extended by exactly
those records and the unchanged raw log appends zero records and succeeds. -/
theorem c3_ingestion_idempotente (cal : List LedgerRecord)
    (eventos : List RawEvent) (nuevos : List LedgerRecord)
    (h : procesarNuevasEntradas cal eventos = some nuevos) :
    procesarNuevasEntradas (cal ++ nuevos) eventos = some [] := by
  rcases hlast : cal.getLast? with _ | ultimo
  · rw [procesarNuevasEntradas_none cal eventos (Or.inl hlast)] at h
    exact absurd h (by simp)
  by_cases hevne : eventos = []
  · rw [procesarNuevasEntradas_none cal eventos (Or.inr hevne)] at h
    exact absurd h (by simp)
  rw [procesarNuevasEntradas_eq cal eventos ultimo hlast hevne] at h
  by_cases hnil : nuevos = []
  · subst hnil
    rw [List.append_nil,
      procesarNuevasEntradas_eq cal eventos ultimo hlast hevne]
    exact h
  · have hX : ((eventos.drop
        (ultimaPosicion eventos ultimo.idRegistro + 1)).filter
        (fun e => e.etapa == "Entrada")).map nuevaEntrada = nuevos :=
      Option.some_inj.mp h
    set idx1 := ultimaPosicion eventos ultimo.idRegistro + 1 with hidx1
    have hFne : (eventos.drop idx1).filter (fun e => e.etapa == "Entrada")
        ≠ [] := by
      intro hF
      rw [hF] at hX
      exact hnil hX.symm
    obtain ⟨elast, hlastF⟩ :=
      Option.isSome_iff_exists.mp (List.getLast?_isSome.mpr hFne)
    have hlastN : nuevos.getLast? = some (nuevaEntrada elast) := by
      rw [← hX, List.getLast?_map, hlastF]
      rfl
    have hlast2 : (cal ++ nuevos).getLast? = some (nuevaEntrada elast) := by
      rw [List.getLast?_append, hlastN]
      rfl
    obtain ⟨j, hj, hget, hpe, hdrop⟩ := getLast?_filter_spec _ _ _ hlastF
    have hjlen : idx1 + j < eventos.length := by
      rw [List.length_drop] at hj
      omega
    have hgete : eventos[idx1 + j]? = some elast := by
      rw [List.getElem?_eq_getElem hjlen]
      simp only [List.get_eq_getElem] at hget
      rw [List.getElem_drop] at hget
      rw [hget]
    obtain ⟨q, hq1, hq2, hq3, e2, he2, he2id⟩ :=
      ultimaPosicion_spec eventos (nuevaEntrada elast).idRegistro
        (idx1 + j) elast hgete rfl
    have hdropidx : (eventos.drop (idx1 + j + 1)).filter
        (fun e => e.etapa == "Entrada") = [] := by
      rw [List.drop_drop] at hdrop
      have harith : idx1 + (j + 1) = idx1 + j + 1 := by omega
      rw [harith] at hdrop
      exact hdrop
    have hdropq : (eventos.drop (q + 1)).filter
        (fun e => e.etapa == "Entrada") = [] :=
      filter_drop_eq_nil _ eventos (idx1 + j + 1) (q + 1) hdropidx (by omega)
    rw [procesarNuevasEntradas_eq (cal ++ nuevos) eventos
      (nuevaEntrada elast) hlast2 hevne, hq3, hdropq]
    rfl

/-- C3, witness: a second run over the ledger extended by the first run's
output appends nothing. -/
theorem c3_ingestion_idempotente_witness :
    procesarNuevasEntradas ([registroBase] ++
        [nuevaEntrada (eventoEntrada "8" "Bea" "10:00:00")]) eventosDos =
      some [] :=
  c3_ingestion_idempotente [registroBase] eventosDos
    [nuevaEntrada (eventoEntrada "8" "Bea" "10:00:00")] rfl

/-- Helper: splitting a separator-free string yields the single piece. -/
theorem dividir_no_sep (sep : Char) (a : List Char) (ha : sep ∉ a) :
    dividir sep a = [a] := by
  induction a with
  | nil => rfl
  | cons c t ih =>
    have hc : ¬c = sep := fun hcs => ha (hcs ▸ List.mem_cons_self ..)
    have ht : sep ∉ t := fun hm => ha (List.mem_cons_of_mem _ hm)
    simp only [dividir, hc, ih ht, if_false, ite_false]

/-- Helper: splitting peels off a separator-free prefix before a separator. -/
theorem dividir_sep_append (sep : Char) (a b : List Char) (ha : sep ∉ a) :
    dividir sep (a ++ sep :: b) = a :: dividir sep b := by
  induction a with
  | nil => simp [dividir]
  | cons c t ih =>
    have hc : ¬c = sep := fun hcs => ha (hcs ▸ List.mem_cons_self ..)
    have ht : sep ∉ t := fun hm => ha (List.mem_cons_of_mem _ hm)
    simp only [List.cons_append, dividir, List.append_eq, hc, ih ht,
      if_false, ite_false]

/-- Helper: zero-filling keeps a piece free of colons. -/
theorem rellenar2_no_sep (a : List Char) (ha : ':' ∉ a) :
    ':' ∉ rellenar2 a := by
  unfold rellenar2
  split
  · intro hmem
    rcases List.mem_append.mp hmem with hl | hr
    · exact absurd (List.eq_of_mem_replicate hl) (by decide)
    · exact ha hr
  · exact ha

/-- Helper: zero-filling yields at least two characters. -/
theorem rellenar2_len (a : List Char) : 2 ≤ (rellenar2 a).length := by
  unfold rellenar2
  split
  · rw [List.length_append, List.length_replicate]
    omega
  · omega

/-- C9: behavior of the Time Parser.  Empty input yields no value; a
single-colon value `H:MM` is zero-padded on both pieces and parsed as
`HH:MM:00`; a two-colon value with a one-character hour is parsed with a
leading zero as `0H:MM:SS`; and whenever the strict `HH:MM:SS` parse of the
normalized text fails, the parser yields no value to the caller instead of
propagating an error. -/
theorem c9_parsear_hora :
    (parsearHora "" = none) ∧
    (∀ (s : String) (a b : List Char), s ≠ "" →
      recortar s.data = a ++ ':' :: b → ':' ∉ a → ':' ∉ b →
      parsearHora s =
        strptimeHMS (rellenar2 a ++ ':' :: rellenar2 b ++ [':', '0', '0'])) ∧
    (∀ (s : String) (a b c : List Char), s ≠ "" →
      recortar s.data = a ++ ':' :: (b ++ ':' :: c) →
      ':' ∉ a → ':' ∉ b → ':' ∉ c → a.length = 1 →
      parsearHora s = strptimeHMS ('0' :: a ++ ':' :: (b ++ ':' :: c))) ∧
    (∀ s : String, s ≠ "" →
      strptimeHMS (normalizar2 (normalizar1 (recortar s.data))) = none →
      parsearHora s = none) := by
  refine ⟨rfl, ?_, ?_, ?_⟩
  · intro s a b hs hsplit ha hb
    unfold parsearHora
    rw [if_neg hs, hsplit]
    have hdiv : dividir ':' (a ++ ':' :: b) = [a, b] := by
      rw [dividir_sep_append _ _ _ ha, dividir_no_sep _ b hb]
    have h1 : normalizar1 (a ++ ':' :: b)
        = rellenar2 a ++ ':' :: rellenar2 b ++ [':', '0', '0'] := by
      unfold normalizar1
      rw [hdiv]
      rfl
    rw [h1]
    have hra : ':' ∉ rellenar2 a := rellenar2_no_sep a ha
    have hrb : ':' ∉ rellenar2 b := rellenar2_no_sep b hb
    have hdiv2 : dividir ':'
        (rellenar2 a ++ ':' :: rellenar2 b ++ [':', '0', '0'])
        = [rellenar2 a, rellenar2 b, ['0', '0']] := by
      simp only [List.cons_append, List.append_assoc]
      rw [dividir_sep_append _ _ _ hra, dividir_sep_append _ _ _ hrb,
        dividir_no_sep _ ['0', '0'] (by decide)]
    have h2 : normalizar2
        (rellenar2 a ++ ':' :: rellenar2 b ++ [':', '0', '0'])
        = rellenar2 a ++ ':' :: rellenar2 b ++ [':', '0', '0'] := by
      unfold normalizar2
      rw [hdiv2]
      have hlen : ¬(rellenar2 a).length = 1 := by
        have := rellenar2_len a
        omega
      simp [hlen]
    rw [h2]
  · intro s a b c hs hsplit ha hb hc halen
    unfold parsearHora
    rw [if_neg hs, hsplit]
    have hdiv : dividir ':' (a ++ ':' :: (b ++ ':' :: c)) = [a, b, c] := by
      rw [dividir_sep_append _ _ _ ha, dividir_sep_append _ _ _ hb,
        dividir_no_sep _ c hc]
    have h1 : normalizar1 (a ++ ':' :: (b ++ ':' :: c))
        = a ++ ':' :: (b ++ ':' :: c) := by
      unfold normalizar1
      rw [hdiv]
      rfl
    rw [h1]
    have h2 : normalizar2 (a ++ ':' :: (b ++ ':' :: c))
        = '0' :: a ++ ':' :: (b ++ ':' :: c) := by
      unfold normalizar2
      rw [hdiv]
      simp [halen]
    rw [h2]
  · intro s hs hfail
    unfold parsearHora
    rw [if_neg hs]
    exact hfail

/-- C9, witness: the single-colon input `7:5` is zero-padded and parsed as
`07:05:00`. -/
theorem c9_parsear_hora_witness :
    parsearHora "7:5" =
      strptimeHMS (rellenar2 ['7'] ++ ':' :: rellenar2 ['5']
        ++ [':', '0', '0']) :=
  c9_parsear_hora.2.1 "7:5" ['7'] ['5'] (by decide) (by decide)
    (by decide) (by decide)

/-- Helper: a filterMap over a duplicate-free list whose function vanishes
away from one member reduces to that member's output. -/
theorem filterMap_unico {α β : Type} (l : List α) (x : α) (f : α → Option β)
    (hnd : l.Nodup) (hx : x ∈ l)
    (hother : ∀ y ∈ l, y ≠ x → f y = none) :
    l.filterMap f = (f x).toList := by
  induction l with
  | nil => exact absurd hx (List.not_mem_nil x)
  | cons a t ih =>
    rcases List.mem_cons.mp hx with rfl | hxt
    · have hnotin : x ∉ t := (List.nodup_cons.mp hnd).1
      have ht : t.filterMap f = [] :=
        List.filterMap_eq_nil.mpr (fun y hy =>
          hother y (List.mem_cons_of_mem _ hy)
            (fun hxy => hnotin (hxy ▸ hy)))
      rw [List.filterMap_cons]
      cases hfa : f x <;> simp [hfa, ht, Option.toList]
    · have hne : a ≠ x := fun haeq => (List.nodup_cons.mp hnd).1 (haeq ▸ hxt)
      have ha : f a = none := hother a (List.mem_cons_self ..) hne
      rw [List.filterMap_cons, ha]
      exact ih (List.nodup_cons.mp hnd).2 hxt
        (fun y hy hyne => hother y (List.mem_cons_of_mem _ hy) hyne)

/-- Helper: with duplicate-free event ids, the j-loop of `actualizar_salidas`
for a record whose source event sits at position `p` attempts exactly one
forward scan, the one starting at `p`. -/
theorem salidasDeRegistro_unica (eventos : List RawEvent)
    (rec : LedgerRecord) (p : Nat) (ev : RawEvent)
    (hn : (eventos.map RawEvent.id).Nodup)
    (hp : eventos[p]? = some ev) (hev : ev.id = rec.idRegistro) :
    salidasDeRegistro eventos rec =
      ((primeraSalidaDesde eventos p rec.colaborador).map
        (mkSalida rec)).toList := by
  obtain ⟨hplen, hpel⟩ := List.getElem?_eq_some.mp hp
  unfold salidasDeRegistro
  have h1 := filterMap_unico (List.range eventos.length).reverse p
    (fun q => if (eventos.getD q default).id == rec.idRegistro then
      (primeraSalidaDesde eventos q rec.colaborador).map (mkSalida rec)
    else none)
    (List.nodup_reverse.mpr (List.nodup_range eventos.length))
    (List.mem_reverse.mpr (List.mem_range.mpr hplen))
    ?_
  · rw [h1]
    have hgd : eventos.getD p default = ev := by
      rw [List.getD_eq_getElem?_getD, hp]
      rfl
    have hcond : ((eventos.getD p default).id == rec.idRegistro) = true := by
      rw [hgd]
      exact beq_iff_eq.mpr hev
    simp only [hcond, if_true]
  · intro q hqmem hqne
    have hqlen : q < eventos.length :=
      List.mem_range.mp (List.mem_reverse.mp hqmem)
    have hqel : eventos[q]? = some (eventos.getD q default) := by
      rw [List.getD_eq_getElem?_getD, List.getElem?_eq_getElem hqlen]
      rfl
    have hqid : (eventos.getD q default).id ≠ rec.idRegistro := by
      intro hqeq
      exact hqne (posicionId_inj eventos hn q p _ ev hqel hp
        (by rw [hqeq, hev]))
    simp only []
    rw [if_neg (by simpa using hqid)]

/-- C2: for a pending record whose source entry event occupies position `p`
of a raw log with pairwise-distinct ids, the exit-matching pass for that
record produces exactly the update built from the first `Salida` event of the
same collaborator at or after `p` (and nothing when there is none); that
chosen event is a `Salida` of the collaborator, every strictly earlier
position at or after `p` holds no such event, and the update copies the
event's time, date and description, with extratime `No` exactly when the
event's extra-hours capture cell is empty, `Si` otherwise. -/
theorem c2_primera_salida (eventos : List RawEvent) (rec : LedgerRecord)
    (p : Nat) (ev : RawEvent)
    (hn : (eventos.map RawEvent.id).Nodup)
    (hpend : rec.horaSalida = "")
    (hp : eventos[p]? = some ev) (hev : ev.id = rec.idRegistro) :
    actualizarSalidas [rec] eventos =
      ((primeraSalidaDesde eventos p rec.colaborador).map
        (mkSalida rec)).toList ∧
    (∀ e, primeraSalidaDesde eventos p rec.colaborador = some e →
      (∃ q, p ≤ q ∧ eventos[q]? = some e ∧
        esSalidaDe e rec.colaborador = true ∧
        ∀ j e2, p ≤ j → j < q → eventos[j]? = some e2 →
          esSalidaDe e2 rec.colaborador = false) ∧
      mkSalida rec e = { colaborador := rec.colaborador,
                         horaSalida := e.hora, fechaSalida := e.fecha,
                         idCal := rec.idCal, descripcion := e.descripcion,
                         extratime := if e.captura == "" then "No" else "Si",
                         idRegistro := rec.idRegistro }) ∧
    (primeraSalidaDesde eventos p rec.colaborador = none →
      ∀ q e2, p ≤ q → eventos[q]? = some e2 →
        esSalidaDe e2 rec.colaborador = false) := by
  refine ⟨?_, ?_, ?_⟩
  · unfold actualizarSalidas
    have hfil : ([rec].reverse.filter (fun r => r.horaSalida == ""))
        = [rec] := by
      simp [hpend]
    rw [hfil]
    simp only [List.flatMap_cons, List.flatMap_nil, List.append_nil]
    exact salidasDeRegistro_unica eventos rec p ev hn hp hev
  · intro e hfind
    refine ⟨?_, rfl⟩
    unfold primeraSalidaDesde at hfind
    obtain ⟨hpe, as, bs, hsplit, hall⟩ := List.find?_eq_some.mp hfind
    refine ⟨p + as.length, by omega, ?_, hpe, ?_⟩
    · rw [← List.getElem?_drop, hsplit,
        List.getElem?_append_right (le_refl as.length)]
      simp
    · intro j e2 hpj hjq hje2
      have hlt : j - p < as.length := by omega
      have hj2 : (eventos.drop p)[j - p]? = some e2 := by
        rw [List.getElem?_drop]
        have harith : p + (j - p) = j := by omega
        rw [harith]
        exact hje2
      rw [hsplit, List.getElem?_append, if_pos hlt] at hj2
      have he2mem : e2 ∈ as := List.getElem?_mem hj2
      have := hall e2 he2mem
      simpa using this
  · intro hnone q e2 hpq hq
    unfold primeraSalidaDesde at hnone
    have hmem : e2 ∈ eventos.drop p := by
      apply List.getElem?_mem (n := q - p)
      rw [List.getElem?_drop]
      have harith : p + (q - p) = q := by omega
      rw [harith]
      exact hq
    have := List.find?_eq_none.mp hnone e2 hmem
    simpa using this

/-- C2, witness: the first open record of the doubled sample, anchored at
position 0. -/
theorem c2_primera_salida_witness :
    actualizarSalidas [registroAbiertoA] eventosDoble =
      ((primeraSalidaDesde eventosDoble 0 registroAbiertoA.colaborador).map
        (mkSalida registroAbiertoA)).toList :=
  (c2_primera_salida eventosDoble registroAbiertoA 0
    (eventoEntrada "1" "Ana" "09:00:00") (by decide) rfl rfl rfl).1

end Asistencia
